import Mathlib

/-!
Verification of the virtual-memory subsystem of the berryOS kernel
(`src/memory.rs`), shallowly embedded in Lean 4.

Machine integers (`u64`) are modelled as `Nat`; all the arithmetic the
source performs on them (shifts, masks, additions of in-range values)
never overflows 64 bits on the inputs considered, so no `% 2^64` is
needed.  Physical memory is modelled as a total function from the
virtual address of a table base to the 512-entry table stored there;
the source reaches every table through the boot-time linear offset
mapping (`virt = physical_memory_offset + phys`), and the model indexes
memory by exactly those virtual addresses.
-/

namespace BerryOS

/-- A page-table entry: the raw 64-bit bitfield of the x86-64
architecture (`PageTableEntry` of the `x86_64` crate). -/
abbrev Entry := Nat

/-- Bits 12..51 of an entry hold the physical frame address
(`PageTableEntry::addr`, mask `0x000f_ffff_ffff_f000`). -/
def ADDR_MASK : Nat := 0x000ffffffffff000

/-- Flag bits of an entry (bits 0..11 and 52..63,
`PageTableFlags::from_bits_truncate`). -/
def FLAGS_MASK : Nat := 0xfff0000000000fff

/-- Flag `PageTableFlags::PRESENT` (bit 0). -/
def entryPresent (e : Entry) : Bool := e.testBit 0

/-- Flag `PageTableFlags::WRITABLE` (bit 1). -/
def entryWritable (e : Entry) : Bool := e.testBit 1

/-- Flag `PageTableFlags::HUGE_PAGE` (bit 7). -/
def entryHuge (e : Entry) : Bool := e.testBit 7

/-- Accessor `PageTableEntry::addr()`: the entry masked to its address bits. -/
def entryAddr (e : Entry) : Nat := e &&& ADDR_MASK

/-- Accessor `PageTableEntry::is_unused()`: the raw entry equals zero. -/
def entryIsUnused (e : Entry) : Bool := e == 0

/-- Error type `x86_64::structures::paging::page_table::FrameError`. -/
inductive FrameError where
  | frameNotPresent
  | hugeFrame
deriving DecidableEq

/-- Accessor `PageTableEntry::frame()`: not present ⇒ `FrameNotPresent`;
present and huge ⇒ `HugeFrame`; otherwise the 4KiB frame whose base is
the entry's address bits. -/
def entryFrame (e : Entry) : Except FrameError Nat :=
  if entryPresent e = false then .error .frameNotPresent
  else if entryHuge e then .error .hugeFrame
  else .ok (entryAddr e)

/-- A page table: 512 entries, read by index.  The model keeps it as a
total function on `Nat`; the walk only ever uses indices below 512. -/
abbrev PageTable := Nat → Entry

/-- Physical memory as seen through the linear offset mapping: a total
map from the *virtual* base address of a table
(`physical_memory_offset + frame.start_address()`) to that table. -/
abbrev Mem := Nat → PageTable

/-- Write one entry of the table whose base (virtual) address is `b`. -/
def writeEntry (m : Mem) (b idx : Nat) (e : Entry) : Mem :=
  fun b' i' => if b' = b ∧ i' = idx then e else m b' i'

/-- Method `PageTable::zero()` on the table at base (virtual) address `b`. -/
def zeroTable (m : Mem) (b : Nat) : Mem :=
  fun b' i' => if b' = b then 0 else m b' i'

/-- Index `VirtAddr::p4_index`: bits 39..47 of the address (`addr >> 39`,
keeping 9 bits). -/
def p4Index (a : Nat) : Nat := a / 2 ^ 39 % 512

/-- Index `VirtAddr::p3_index`: bits 30..38. -/
def p3Index (a : Nat) : Nat := a / 2 ^ 30 % 512

/-- Index `VirtAddr::p2_index`: bits 21..29. -/
def p2Index (a : Nat) : Nat := a / 2 ^ 21 % 512

/-- Index `VirtAddr::p1_index`: bits 12..20. -/
def p1Index (a : Nat) : Nat := a / 2 ^ 12 % 512

/-- Offset `VirtAddr::page_offset`: the low 12 bits. -/
def pageOffset (a : Nat) : Nat := a % 4096

/-- The `table_indexes` array of `translate_addr_inner`, most
significant level first. -/
def tableIndexes (a : Nat) : List Nat :=
  [p4Index a, p3Index a, p2Index a, p1Index a]

/-- Outcome of running a piece of code that may `panic!`. -/
inductive Res (α : Type) where
  | fatal (msg : String)
  | ok (a : α)
deriving DecidableEq

/-- The `for` loop of `translate_addr_inner`: starting from `frame`,
consume the remaining index list; on each step read the table at
`off + frame` through the offset mapping and examine the entry's frame.
`Ok` descends, `FrameNotPresent` returns `None` from the whole
function, `HugeFrame` panics.  After the last level the result is the
final frame base plus the page offset. -/
def translateWalk (m : Mem) (off pageOff : Nat) : List Nat → Nat → Res (Option Nat)
  | [], frame => .ok (some (frame + pageOff))
  | i :: rest, frame =>
    match entryFrame (m (off + frame) i) with
    | .ok f => translateWalk m off pageOff rest f
    | .error .frameNotPresent => .ok none
    | .error .hugeFrame => .fatal "huge pages not supported"

/-- Function `translate_addr_inner`: `cr3` is the base of the level-4 table read
from the CR3 register. -/
def translateAddrInner (m : Mem) (addr off cr3 : Nat) : Res (Option Nat) :=
  translateWalk m off (pageOffset addr) (tableIndexes addr) cr3

/-- Function `translate_addr` (the public wrapper). -/
def translateAddr (m : Mem) (addr off cr3 : Nat) : Res (Option Nat) :=
  translateAddrInner m addr off cr3

/-- State-threaded rendition of the loop of `translate_addr_inner`:
identical control flow, but the memory is passed along explicitly so
that the absence of writes is visible in the type. -/
def translateWalkSt (off pageOff : Nat) : List Nat → Nat → Mem → Res (Option Nat) × Mem
  | [], frame, m => (.ok (some (frame + pageOff)), m)
  | i :: rest, frame, m =>
    match entryFrame (m (off + frame) i) with
    | .ok f => translateWalkSt off pageOff rest f m
    | .error .frameNotPresent => (.ok none, m)
    | .error .hugeFrame => (.fatal "huge pages not supported", m)

/-- State-threaded `translate_addr`. -/
def translateAddrSt (m : Mem) (addr off cr3 : Nat) : Res (Option Nat) × Mem :=
  translateWalkSt off (pageOffset addr) (tableIndexes addr) cr3 m

/-- The specification's index of a virtual address for level `l`
(`l` = 4..1): 9 bits starting at bit `9*(l-1) + 12`. -/
def levelIndex (a l : Nat) : Nat := a / 2 ^ (9 * (l - 1) + 12) % 512

/-- The walk exactly as the specification words it: "Starting from the
top-level table, for levels 4→1: read the entry at the current index
(via the linear offset mapping); if not present, return absence; if
huge page, abort; otherwise descend into the referenced frame.  After
level 1, result = final frame base + original 12-bit offset." -/
def specWalkLevels (m : Mem) (off a : Nat) : Nat → Nat → Res (Option Nat)
  | 0, frame => .ok (some (frame + a % 4096))
  | l + 1, frame =>
    let e := m (off + frame) (levelIndex a (l + 1))
    if entryPresent e = false then .ok none
    else if entryHuge e then .fatal "huge pages not supported"
    else specWalkLevels m off a l (entryAddr e)

/-- The specification's `translate`, levels 4 down to 1. -/
def specTranslate (m : Mem) (off cr3 a : Nat) : Res (Option Nat) :=
  specWalkLevels m off a 4 cr3

/-- Recomposition of the five decomposed fields of a virtual address
(indices weighted by their bit positions 39/30/21/12, plus the page
offset). -/
def recompose (p4 p3 p2 p1 off : Nat) : Nat :=
  p4 * 2 ^ 39 + p3 * 2 ^ 30 + p2 * 2 ^ 21 + p1 * 2 ^ 12 + off

/-- The frame visited by the walk of `translate_addr_inner` just before
step `k` (step 0 reads the level-4 table at `cr3`). -/
def stepFrame (m : Mem) (off cr3 addr : Nat) : Nat → Nat
  | 0 => cr3
  | k + 1 =>
    entryAddr (m (off + stepFrame m off cr3 addr k) ((tableIndexes addr).getD k 0))

/-- The entry read by the walk of `translate_addr_inner` at step `k`. -/
def stepEntry (m : Mem) (off cr3 addr k : Nat) : Entry :=
  m (off + stepFrame m off cr3 addr k) ((tableIndexes addr).getD k 0)

/-- Type `bootloader::bootinfo::MemoryRegionType`; the source only
distinguishes `Usable` from the rest. -/
inductive MemoryRegionType where
  | usable
  | inUse
  | reserved
  | other
deriving DecidableEq

/-- A region of the firmware memory map, through the `start_addr()` /
`end_addr()` accessors the source reads on `r.range`. -/
structure MemoryRegion where
  startAddr : Nat
  endAddr : Nat
  regionType : MemoryRegionType
deriving DecidableEq

/-- Test `r.region_type == MemoryRegionType::Usable`. -/
def isUsable (r : MemoryRegion) : Bool := r.regionType == MemoryRegionType.usable

/-- Rust `(start..stop).step_by(4096)`: the addresses
`start, start + 4096, …` strictly below `stop`. -/
def stepBy4096 (start stop : Nat) : List Nat :=
  (List.range ((stop - start + 4095) / 4096)).map fun k => start + 4096 * k

/-- Method `PhysFrame::containing_address`: round down to the 4KiB boundary. -/
def containingAddress (a : Nat) : Nat := a / 4096 * 4096

/-- Iterator `BootInfoFrameAllocator::usable_frames` as the list it enumerates:
keep the usable regions, expand each to its address range, step by
4096, and map each address to its containing frame's base. -/
def usableFramesList (map : List MemoryRegion) : List Nat :=
  (((map.filter isUsable).map fun r => (r.startAddr, r.endAddr)).flatMap
    fun p => stepBy4096 p.1 p.2).map containingAddress

/-- Struct `BootInfoFrameAllocator`: the memory map and the `next` cursor. -/
structure BootInfoFrameAllocator where
  memoryMap : List MemoryRegion
  next : Nat
deriving DecidableEq

/-- Constructor `BootInfoFrameAllocator::init`. -/
def allocInit (map : List MemoryRegion) : BootInfoFrameAllocator :=
  { memoryMap := map, next := 0 }

/-- Method `BootInfoFrameAllocator::allocate_frame`: take element `next` of
the recomputed usable-frame sequence, and increment the cursor whether
or not a frame was found. -/
def allocateFrame (a : BootInfoFrameAllocator) :
    Option Nat × BootInfoFrameAllocator :=
  ((usableFramesList a.memoryMap).get? a.next,
   { a with next := a.next + 1 })

/-- The allocator state after `k` calls to `allocate_frame`. -/
def runCalls (a : BootInfoFrameAllocator) : Nat → BootInfoFrameAllocator
  | 0 => a
  | k + 1 => (allocateFrame (runCalls a k)).2

/-- The frame returned by call number `i` (0-based) when starting from
allocator state `a`. -/
def nthCallResult (a : BootInfoFrameAllocator) (i : Nat) : Option Nat :=
  (allocateFrame (runCalls a i)).1

/-- Method `EmptyFrameAllocator::allocate_frame`. -/
def emptyAllocateFrame : Option Nat := none

/-- The `x86_64` crate's `MapToError` cases reachable from `map_to` here. -/
inductive MapToError where
  | frameAllocationFailed
  | mappedToHugePage
  | pageAlreadyMapped (frame : Nat)
deriving DecidableEq

/-- Method `PageTableEntry::set_flags`: keep the address bits, replace the
flag bits. -/
def setFlags (e : Entry) (fl : Nat) : Entry := entryAddr e ||| fl

/-- Test `entry.flags().contains(fl)`. -/
def flagsContain (e : Entry) (fl : Nat) : Bool := (e &&& FLAGS_MASK) &&& fl == fl

/-- The allocator consumed by `map_to` for intermediate tables,
abstracted as the (finite) stream of frame bases it will return; an
exhausted allocator is the empty list. -/
abbrev AllocStream := List Nat

/-- Function `PageTableWalker::create_next_table` on the entry at index `idx` of
the table whose physical base is `tbl`: if the entry is unused,
allocate a frame, point the entry at it with `insertFlags`
(`set_frame`), and zero the new table; otherwise or the missing
`insertFlags` into the entry.  Then read the entry back as a frame:
huge ⇒ `MappedToHugePage`; not present ⇒ the crate's
`panic!("entry should be mapped at this point")`; else return the
next-level table's base together with the updated memory and the rest
of the allocator stream. -/
def createNextTable (m : Mem) (off tbl idx insertFlags : Nat) (alloc : AllocStream) :
    Res (Except MapToError (Nat × Mem × AllocStream)) :=
  let e := m (off + tbl) idx
  if entryIsUnused e then
    match alloc with
    | [] => .ok (.error .frameAllocationFailed)
    | f :: rest =>
      let e1 := f ||| insertFlags
      let m1 := writeEntry m (off + tbl) idx e1
      match entryFrame e1 with
      | .error .hugeFrame => .ok (.error .mappedToHugePage)
      | .error .frameNotPresent => .fatal "entry should be mapped at this point"
      | .ok nt => .ok (.ok (nt, zeroTable m1 (off + nt), rest))
  else
    let e1 := if insertFlags != 0 && !flagsContain e insertFlags
              then setFlags e ((e &&& FLAGS_MASK) ||| insertFlags) else e
    let m1 := writeEntry m (off + tbl) idx e1
    match entryFrame e1 with
    | .error .hugeFrame => .ok (.error .mappedToHugePage)
    | .error .frameNotPresent => .fatal "entry should be mapped at this point"
    | .ok nt => .ok (.ok (nt, m1, alloc))

/-- Method `Mapper::map_to` of the `OffsetPageTable` built by `init`: walk
levels 4→2 with `create_next_table` (parent-table flags are the
requested flags restricted to `PRESENT | WRITABLE | USER_ACCESSIBLE`),
then require the level-1 slot to be unused and fill it with
`set_frame(frame, flags)`.  The level-4 table base is the CR3 root the
mapper was initialised with. -/
def mapTo (m : Mem) (off cr3 page frame flags : Nat) (alloc : AllocStream) :
    Res (Except MapToError Mem) :=
  let parentFlags := flags &&& 7
  match createNextTable m off cr3 (p4Index page) parentFlags alloc with
  | .fatal s => .fatal s
  | .ok (.error e) => .ok (.error e)
  | .ok (.ok (b3, m1, a1)) =>
    match createNextTable m1 off b3 (p3Index page) parentFlags a1 with
    | .fatal s => .fatal s
    | .ok (.error e) => .ok (.error e)
    | .ok (.ok (b2, m2, a2)) =>
      match createNextTable m2 off b2 (p2Index page) parentFlags a2 with
      | .fatal s => .fatal s
      | .ok (.error e) => .ok (.error e)
      | .ok (.ok (b1, m3, _)) =>
        if entryIsUnused (m3 (off + b1) (p1Index page)) = false then
          .ok (.error (.pageAlreadyMapped frame))
        else
          .ok (.ok (writeEntry m3 (off + b1) (p1Index page) (frame ||| flags)))

/-- Function `create_example_mapping`: map `page` to the frame containing
`0xb8000` with `PRESENT | WRITABLE`, and `expect` (panic) on any
`map_to` error.  (`flush()` only touches the TLB, which has no
counterpart in the memory model.) -/
def createExampleMapping (page : Nat) (m : Mem) (off cr3 : Nat) (alloc : AllocStream) :
    Res Mem :=
  let frame := containingAddress 0xb8000
  let flags := 1 ||| 2
  match mapTo m off cr3 page frame flags alloc with
  | .fatal s => .fatal s
  | .ok (.error _) => .fatal "map_to failed"
  | .ok (.ok m1) => .ok m1

/-- Usable regions of a map are pairwise disjoint address ranges. -/
def usableDisjoint (map : List MemoryRegion) : Prop :=
  (map.filter isUsable).Pairwise fun r s =>
    r.endAddr ≤ s.startAddr ∨ s.endAddr ≤ r.startAddr

/-- Every usable region starts on a 4KiB boundary. -/
def usableAligned (map : List MemoryRegion) : Prop :=
  ∀ r ∈ map.filter isUsable, r.startAddr % 4096 = 0

instance (map : List MemoryRegion) : Decidable (usableAligned map) := by
  unfold usableAligned
  infer_instance

instance (map : List MemoryRegion) : Decidable (usableDisjoint map) := by
  unfold usableDisjoint
  infer_instance

/-- The levels `l, l-1, …, 1` indices of `a`, most significant first. -/
def levelIndexList (a : Nat) : Nat → List Nat
  | 0 => []
  | l + 1 => levelIndex a (l + 1) :: levelIndexList a l

/-- Memory with a single entry: huge-page flag set, present flag clear
(raw entry `0x80` everywhere). -/
def memHugeNotPresent : Mem := fun _ _ => 0x80

/-- Memory whose every entry is present, writable and huge
(raw entry `0x83`). -/
def memHugePresent : Mem := fun _ _ => 0x83

/-- The memory map of the spec's scenario: one usable region from
`0x0000` to `0x9000`. -/
def mapC7 : List MemoryRegion := [⟨0x0000, 0x9000, .usable⟩]

/-- Two disjoint usable regions that meet at the non-frame-aligned
address `0x800`. -/
def mapAdjacent : List MemoryRegion :=
  [⟨0x0000, 0x800, .usable⟩, ⟨0x800, 0x1000, .usable⟩]

/-- The same usable region listed twice. -/
def mapDuplicated : List MemoryRegion :=
  [⟨0x0000, 0x1000, .usable⟩, ⟨0x0000, 0x1000, .usable⟩]

/-- One usable region whose start address is not 4KiB-aligned. -/
def mapUnaligned : List MemoryRegion := [⟨0x800, 0x1800, .usable⟩]

/-- All-zero memory (every table entry unused). -/
def memZero : Mem := fun _ _ => 0

/-- Memory after the first `create_next_table` step of the concrete
mapping run used as witness (root `0x1000`, fresh table `0x3000`). -/
def c5m1 : Mem :=
  zeroTable (writeEntry memZero (0 + 0x1000) (p4Index 0x2000) (0x3000 ||| 3)) (0 + 0x3000)

/-- Memory after the second step (fresh table `0x4000`). -/
def c5m2 : Mem :=
  zeroTable (writeEntry c5m1 (0 + 0x3000) (p3Index 0x2000) (0x4000 ||| 3)) (0 + 0x4000)

/-- Memory after the third step (fresh table `0x5000`). -/
def c5m3 : Mem :=
  zeroTable (writeEntry c5m2 (0 + 0x4000) (p2Index 0x2000) (0x5000 ||| 3)) (0 + 0x5000)

-- ==========================================================
-- Helper lemmas
-- ==========================================================

theorem entryFrame_ok {e : Entry} (hp : entryPresent e = true)
    (hh : entryHuge e = false) : entryFrame e = .ok (entryAddr e) := by
  simp [entryFrame, hp, hh]

theorem entryFrame_ok_elim {e : Entry} {nt : Nat} (h : entryFrame e = .ok nt) :
    entryPresent e = true ∧ entryHuge e = false ∧ entryAddr e = nt := by
  unfold entryFrame at h
  split at h
  · exact absurd h (by simp)
  · split at h
    · exact absurd h (by simp)
    · refine ⟨by simp_all, by simp_all, by simpa using h⟩

theorem translateWalk_cons (m : Mem) (off po i frame : Nat) (rest : List Nat) :
    translateWalk m off po (i :: rest) frame =
      if entryPresent (m (off + frame) i) = false then .ok none
      else if entryHuge (m (off + frame) i) = true then
        .fatal "huge pages not supported"
      else translateWalk m off po rest (entryAddr (m (off + frame) i)) := by
  by_cases hp : entryPresent (m (off + frame) i) = false
  · simp [translateWalk, entryFrame, hp]
  · by_cases hh : entryHuge (m (off + frame) i) = true
    · simp [translateWalk, entryFrame, hp, hh]
    · simp [translateWalk, entryFrame, hp, hh]

theorem translateWalk_cons_ok {m : Mem} {off po i frame : Nat} {rest : List Nat}
    (hp : entryPresent (m (off + frame) i) = true)
    (hh : entryHuge (m (off + frame) i) = false) :
    translateWalk m off po (i :: rest) frame =
      translateWalk m off po rest (entryAddr (m (off + frame) i)) := by
  rw [translateWalk_cons]
  simp [hp, hh]

theorem walk_spec_levels (m : Mem) (off a : Nat) :
    ∀ l frame, specWalkLevels m off a l frame =
      translateWalk m off (a % 4096) (levelIndexList a l) frame := by
  intro l
  induction l with
  | zero => intro frame; rfl
  | succ n ih =>
    intro frame
    rw [levelIndexList, translateWalk_cons, specWalkLevels]
    split
    · rfl
    · split
      · rfl
      · exact ih _

-- ==========================================================
-- Claim theorems
-- ==========================================================

/-- C1: `translate_addr` walks the four levels most-significant-first
from the CR3 root, reading each entry at the address's 9-bit index for
that level through the linear offset mapping; a non-present entry
yields `None` (absence), a huge entry aborts, and otherwise the result
is `Some` of the level-1 frame base plus the 12-bit page offset — i.e.
the code agrees with the specification's level-by-level walk
verbatim. -/
theorem c1_translate_matches_spec (m : Mem) (off cr3 addr : Nat) :
    translateAddr m addr off cr3 = specTranslate m off cr3 addr := by
  unfold translateAddr translateAddrInner specTranslate
  rw [walk_spec_levels]
  have hidx : levelIndexList addr 4 = tableIndexes addr := by
    simp [levelIndexList, levelIndex, tableIndexes, p4Index, p3Index, p2Index, p1Index]
  rw [hidx]
  rfl

theorem tableIndexes_length (addr : Nat) : (tableIndexes addr).length = 4 := rfl

theorem walk_unroll (m : Mem) (off cr3 addr : Nat) :
    ∀ k, k ≤ 4 →
      (∀ j, j < k → entryPresent (stepEntry m off cr3 addr j) = true ∧
        entryHuge (stepEntry m off cr3 addr j) = false) →
      translateAddrInner m addr off cr3 =
        translateWalk m off (pageOffset addr) ((tableIndexes addr).drop k)
          (stepFrame m off cr3 addr k) := by
  intro k
  induction k with
  | zero => intro _ _; rfl
  | succ n ih =>
    intro hk hpath
    have hn4 : n < 4 := by omega
    have hlen : n < (tableIndexes addr).length := by rw [tableIndexes_length]; exact hn4
    rw [ih (by omega) (fun j hj => hpath j (by omega))]
    rw [List.drop_eq_getElem_cons hlen]
    have hget : (tableIndexes addr)[n] = (tableIndexes addr).getD n 0 := by
      rw [List.getD_eq_getElem _ _ hlen]
    obtain ⟨hp, hh⟩ := hpath n (by omega)
    rw [hget]
    exact translateWalk_cons_ok hp hh

/-- C2 (amended): a walk that reaches a *present* entry with the
huge-page flag set at any level aborts with the huge-page panic and
returns no physical address.  (A non-present entry with the huge flag
set returns `None` instead — see the counterexample.) -/
theorem c2_present_huge_aborts (m : Mem) (off cr3 addr k : Nat) (hk : k < 4)
    (hpath : ∀ j, j < k → entryPresent (stepEntry m off cr3 addr j) = true ∧
      entryHuge (stepEntry m off cr3 addr j) = false)
    (hp : entryPresent (stepEntry m off cr3 addr k) = true)
    (hh : entryHuge (stepEntry m off cr3 addr k) = true) :
    translateAddr m addr off cr3 = .fatal "huge pages not supported" := by
  unfold translateAddr
  rw [walk_unroll m off cr3 addr k (by omega) hpath]
  have hlen : k < (tableIndexes addr).length := by rw [tableIndexes_length]; exact hk
  simp only [stepEntry, List.getD, List.get?_eq_getElem?] at hp hh
  rw [List.drop_eq_getElem_cons hlen, translateWalk_cons,
    ← List.getD_eq_getElem (tableIndexes addr) 0 hlen]
  simp only [List.getD, List.get?_eq_getElem?]
  rw [if_neg (by simp [hp]), if_pos hh]

/-- Witness for C2: on a hierarchy whose every entry is present and
huge, translating address 0 panics at the very first level. -/
theorem c2_present_huge_aborts_witness :
    translateAddr memHugePresent 0 0 0 = .fatal "huge pages not supported" :=
  c2_present_huge_aborts memHugePresent 0 0 0 0 (by omega)
    (fun j hj => absurd hj (Nat.not_lt_zero j)) (by decide) (by decide)

/-- Counterexample to C2 as stated: the walk reads an entry whose
huge-page flag is set but whose present flag is clear, and
`translate_addr` returns `None` instead of aborting (the code tests
presence before hugeness). -/
theorem c2_counterexample :
    entryHuge (stepEntry memHugeNotPresent 0 0 0 0) = true ∧
      entryPresent (stepEntry memHugeNotPresent 0 0 0 0) = false ∧
      translateAddr memHugeNotPresent 0 0 0 = .ok none := by
  refine ⟨by decide, by decide, ?_⟩
  rfl

/-- C4: decomposing a (48-bit) virtual address into its four 9-bit
indices and 12-bit page offset and recomposing the five fields
reproduces the address exactly. -/
theorem c4_decompose_recompose (a : Nat) (ha : a < 2 ^ 48) :
    recompose (p4Index a) (p3Index a) (p2Index a) (p1Index a) (pageOffset a) = a := by
  unfold recompose p4Index p3Index p2Index p1Index pageOffset
  norm_num
  omega

/-- Witness for C4 at a concrete 48-bit address. -/
theorem c4_decompose_recompose_witness :
    recompose (p4Index 0x7fab12345678) (p3Index 0x7fab12345678)
      (p2Index 0x7fab12345678) (p1Index 0x7fab12345678)
      (pageOffset 0x7fab12345678) = 0x7fab12345678 :=
  c4_decompose_recompose 0x7fab12345678 (by norm_num)

theorem walkSt_eq (off po : Nat) :
    ∀ (l : List Nat) (frame : Nat) (m : Mem),
      translateWalkSt off po l frame m = (translateWalk m off po l frame, m) := by
  intro l
  induction l with
  | nil => intro frame m; rfl
  | cons i rest ih =>
    intro frame m
    simp only [translateWalkSt, translateWalk]
    cases h : entryFrame (m (off + frame) i) with
    | ok f => simp [ih]
    | error e => cases e <;> simp

/-- C9: `translate_addr` is read-only — the state-threaded rendition
of its loop returns the memory unchanged, and its result is the pure
function of the address, the offset and the hierarchy. -/
theorem c9_translate_read_only (m : Mem) (addr off cr3 : Nat) :
    translateAddrSt m addr off cr3 = (translateAddr m addr off cr3, m) := by
  unfold translateAddrSt translateAddr translateAddrInner
  exact walkSt_eq off (pageOffset addr) (tableIndexes addr) cr3 m

theorem cnt_cases {m m1 : Mem} {off tbl idx fl nt : Nat}
    {alloc a1 : AllocStream}
    (h : createNextTable m off tbl idx fl alloc = .ok (.ok (nt, m1, a1))) :
    ∃ e1, entryFrame e1 = .ok nt ∧
      (m1 = zeroTable (writeEntry m (off + tbl) idx e1) (off + nt) ∨
       m1 = writeEntry m (off + tbl) idx e1) := by
  simp only [createNextTable] at h
  by_cases hu : entryIsUnused (m (off + tbl) idx) = true
  · rw [if_pos hu] at h
    cases alloc with
    | nil => simp at h
    | cons f rest =>
      simp only at h
      split at h
      · simp at h
      · simp at h
      · rename_i nt' heq
        obtain ⟨hnt, hm, -⟩ : nt' = nt ∧
            zeroTable (writeEntry m (off + tbl) idx (f ||| fl)) (off + nt') = m1 ∧
            rest = a1 := by
          simpa using h
        subst hnt
        exact ⟨f ||| fl, heq, Or.inl hm.symm⟩
  · rw [if_neg hu] at h
    generalize he1 : (if (fl != 0 && !flagsContain (m (off + tbl) idx) fl) = true
        then setFlags (m (off + tbl) idx) (m (off + tbl) idx &&& FLAGS_MASK ||| fl)
        else m (off + tbl) idx) = e1 at h
    split at h
    · simp at h
    · simp at h
    · rename_i nt' heq
      obtain ⟨hnt, hm, -⟩ : nt' = nt ∧
          writeEntry m (off + tbl) idx e1 = m1 ∧ alloc = a1 := by
        simpa using h
      subst hnt
      exact ⟨e1, heq, Or.inr hm.symm⟩

theorem cnt_frame {m m1 : Mem} {off tbl idx fl nt : Nat}
    {alloc a1 : AllocStream}
    (h : createNextTable m off tbl idx fl alloc = .ok (.ok (nt, m1, a1))) :
    ∀ b i, b ≠ off + tbl → b ≠ off + nt → m1 b i = m b i := by
  intro b i hb1 hb2
  obtain ⟨e1, -, hm | hm⟩ := cnt_cases h <;> subst hm <;>
    simp [zeroTable, writeEntry, hb1, hb2]

theorem cnt_entry {m m1 : Mem} {off tbl idx fl nt : Nat}
    {alloc a1 : AllocStream}
    (h : createNextTable m off tbl idx fl alloc = .ok (.ok (nt, m1, a1)))
    (hne : tbl ≠ nt) :
    entryPresent (m1 (off + tbl) idx) = true ∧
      entryHuge (m1 (off + tbl) idx) = false ∧
      entryAddr (m1 (off + tbl) idx) = nt := by
  have hadd : off + nt ≠ off + tbl := by omega
  obtain ⟨e1, heq, hm | hm⟩ := cnt_cases h <;> subst hm
  · have hval : zeroTable (writeEntry m (off + tbl) idx e1) (off + nt)
        (off + tbl) idx = e1 := by
      simp [zeroTable, writeEntry, hadd, hne]
    rw [hval]
    exact entryFrame_ok_elim heq
  · have hval : writeEntry m (off + tbl) idx e1 (off + tbl) idx = e1 := by
      simp [writeEntry]
    rw [hval]
    exact entryFrame_ok_elim heq

theorem writeEntry_ne {m : Mem} {b idx e b' i' : Nat} (h : b' ≠ b) :
    writeEntry m b idx e b' i' = m b' i' := by
  simp [writeEntry, h]

theorem writeEntry_self {m : Mem} {b idx e : Nat} :
    writeEntry m b idx e b idx = e := by
  simp [writeEntry]

theorem index_stable (page o : Nat) (hpage : page % 4096 = 0) (ho : o < 4096) :
    p4Index (page + o) = p4Index page ∧ p3Index (page + o) = p3Index page ∧
      p2Index (page + o) = p2Index page ∧ p1Index (page + o) = p1Index page ∧
      pageOffset (page + o) = o := by
  unfold p4Index p3Index p2Index p1Index pageOffset
  norm_num
  omega

/-- C5: when `create_example_mapping(page, …)` completes, the level-1
slot of the walk holds a present+writable entry whose address bits are
the base of the frame containing `0xb8000`, every missing intermediate
table having been taken from the allocator (`h1`–`h3` name the three
`create_next_table` steps of the successful `map_to` run and the bases
`b3`,`b2`,`b1` they return); and an immediately following translate of
any address in the page yields `0xb8000` plus the address's 12-bit
offset.  The distinctness hypotheses state that the three intermediate
tables and the root do not alias — the unsafe contract of the frame
allocator (it must yield frames that are really unused). -/
theorem c5_mapping_then_translate
    (m m1 m2 m3 : Mem) (off cr3 page o b3 b2 b1 : Nat)
    (alloc a1 a2 a3 : AllocStream)
    (hpage : page % 4096 = 0) (ho : o < 4096)
    (h1 : createNextTable m off cr3 (p4Index page) 3 alloc = .ok (.ok (b3, m1, a1)))
    (h2 : createNextTable m1 off b3 (p3Index page) 3 a1 = .ok (.ok (b2, m2, a2)))
    (h3 : createNextTable m2 off b2 (p2Index page) 3 a2 = .ok (.ok (b1, m3, a3)))
    (h4 : entryIsUnused (m3 (off + b1) (p1Index page)) = true)
    (hd1 : cr3 ≠ b3) (hd2 : cr3 ≠ b2) (hd3 : cr3 ≠ b1)
    (hd4 : b3 ≠ b2) (hd5 : b3 ≠ b1) (hd6 : b2 ≠ b1) :
    createExampleMapping page m off cr3 alloc =
        .ok (writeEntry m3 (off + b1) (p1Index page) (0xb8000 ||| 3))
    ∧ (entryPresent (writeEntry m3 (off + b1) (p1Index page) (0xb8000 ||| 3)
          (off + b1) (p1Index page)) = true
       ∧ entryWritable (writeEntry m3 (off + b1) (p1Index page) (0xb8000 ||| 3)
          (off + b1) (p1Index page)) = true
       ∧ entryAddr (writeEntry m3 (off + b1) (p1Index page) (0xb8000 ||| 3)
          (off + b1) (p1Index page)) = 0xb8000)
    ∧ translateAddr (writeEntry m3 (off + b1) (p1Index page) (0xb8000 ||| 3))
        (page + o) off cr3 = .ok (some (0xb8000 + o)) := by
  have hrun : createExampleMapping page m off cr3 alloc =
      .ok (writeEntry m3 (off + b1) (p1Index page) (0xb8000 ||| 3)) := by
    simp only [createExampleMapping, mapTo]
    rw [show ((1 ||| 2 : Nat) &&& 7) = 3 from by decide,
      show containingAddress 0xb8000 = 0xb8000 from by decide]
    simp only [h1, h2, h3, h4]
    rfl
  refine ⟨hrun, ?_, ?_⟩
  · rw [writeEntry_self]
    exact ⟨by decide, by decide, by decide⟩
  · -- the walk over the mapped-in hierarchy
    obtain ⟨hi4, hi3, hi2, hi1, hio⟩ := index_stable page o hpage ho
    set M := writeEntry m3 (off + b1) (p1Index page) (0xb8000 ||| 3) with hM
    -- level 4: the entry at (cr3, p4) survives all later writes
    have r4 : M (off + cr3) (p4Index page) = m1 (off + cr3) (p4Index page) := by
      rw [hM, writeEntry_ne (by omega : off + cr3 ≠ off + b1),
        cnt_frame h3 (off + cr3) (p4Index page) (by omega) (by omega),
        cnt_frame h2 (off + cr3) (p4Index page) (by omega) (by omega)]
    obtain ⟨p4p, p4h, p4a⟩ := cnt_entry h1 hd1
    -- level 3
    have r3 : M (off + b3) (p3Index page) = m2 (off + b3) (p3Index page) := by
      rw [hM, writeEntry_ne (by omega : off + b3 ≠ off + b1),
        cnt_frame h3 (off + b3) (p3Index page) (by omega) (by omega)]
    obtain ⟨p3p, p3h, p3a⟩ := cnt_entry h2 hd4
    -- level 2
    have r2 : M (off + b2) (p2Index page) = m3 (off + b2) (p2Index page) := by
      rw [hM, writeEntry_ne (by omega : off + b2 ≠ off + b1)]
    obtain ⟨p2p, p2h, p2a⟩ := cnt_entry h3 hd6
    -- level 1
    have r1 : M (off + b1) (p1Index page) = 0xb8000 ||| 3 := by
      rw [hM, writeEntry_self]
    -- now unroll the four steps
    unfold translateAddr translateAddrInner tableIndexes
    rw [hi4, hi3, hi2, hi1, hio]
    rw [translateWalk_cons_ok (by rw [r4, p4p]) (by rw [r4, p4h]), r4, p4a]
    rw [translateWalk_cons_ok (by rw [r3, p3p]) (by rw [r3, p3h]), r3, p3a]
    rw [translateWalk_cons_ok (by rw [r2, p2p]) (by rw [r2, p2h]), r2, p2a]
    rw [translateWalk_cons_ok (by rw [r1]; decide) (by rw [r1]; decide), r1]
    unfold translateWalk
    rw [show entryAddr (0xb8000 ||| 3) = 0xb8000 from by decide]

/-- Witness for C5: on all-zero memory with root `0x1000`, mapping page
`0x2000` with allocator stream `[0x3000, 0x4000, 0x5000]` and then
translating `0x2005` yields `0xb8005`. -/
theorem c5_mapping_then_translate_witness :
    translateAddr (writeEntry c5m3 (0 + 0x5000) (p1Index 0x2000) (0xb8000 ||| 3))
      (0x2000 + 5) 0 0x1000 = .ok (some (0xb8000 + 5)) :=
  (c5_mapping_then_translate memZero c5m1 c5m2 c5m3 0 0x1000 0x2000 5
    0x3000 0x4000 0x5000 [0x3000, 0x4000, 0x5000] [0x4000, 0x5000] [0x5000] []
    (by decide) (by decide) rfl rfl rfl rfl
    (by decide) (by decide) (by decide) (by decide) (by decide) (by decide)).2.2

/-- C8: `create_example_mapping` never surfaces a `map_to` error value:
an error result panics with the `expect` message, a panic inside
`map_to` propagates as a panic, and an ordinary return happens only
when `map_to` succeeded outright (no partial completion is ever
returned). -/
theorem c8_failure_is_fatal (page : Nat) (m : Mem) (off cr3 : Nat)
    (alloc : AllocStream) :
    (∀ e, mapTo m off cr3 page (containingAddress 0xb8000) (1 ||| 2) alloc
        = .ok (.error e) →
      createExampleMapping page m off cr3 alloc = .fatal "map_to failed")
    ∧ (∀ s, mapTo m off cr3 page (containingAddress 0xb8000) (1 ||| 2) alloc
        = .fatal s →
      createExampleMapping page m off cr3 alloc = .fatal s)
    ∧ (∀ m', createExampleMapping page m off cr3 alloc = .ok m' →
      mapTo m off cr3 page (containingAddress 0xb8000) (1 ||| 2) alloc
        = .ok (.ok m')) := by
  refine ⟨?_, ?_, ?_⟩
  · intro e he
    simp only [createExampleMapping]
    rw [he]
  · intro s hs
    simp only [createExampleMapping]
    rw [hs]
  · intro m' h
    simp only [createExampleMapping] at h
    cases hm : mapTo m off cr3 page (containingAddress 0xb8000) (1 ||| 2) alloc with
    | fatal s => rw [hm] at h; simp at h
    | ok x =>
      cases x with
      | error e => rw [hm] at h; simp at h
      | ok mm =>
        rw [hm] at h
        simp only [Res.ok.injEq] at h
        rw [h]

/-- Witness for C8: with an exhausted allocator on empty tables,
`map_to` fails to allocate the level-3 table and
`create_example_mapping` panics. -/
theorem c8_failure_is_fatal_witness :
    createExampleMapping 0 memZero 0 0 [] = .fatal "map_to failed" :=
  (c8_failure_is_fatal 0 memZero 0 0 []).1 .frameAllocationFailed rfl

theorem runCalls_state (a : BootInfoFrameAllocator) :
    ∀ k, (runCalls a k).memoryMap = a.memoryMap ∧
      (runCalls a k).next = a.next + k := by
  intro k
  induction k with
  | zero => exact ⟨rfl, rfl⟩
  | succ n ih =>
    obtain ⟨h1, h2⟩ := ih
    exact ⟨by simp [runCalls, allocateFrame, h1],
      by simp [runCalls, allocateFrame, h2]; omega⟩

theorem nthCallResult_eq (a : BootInfoFrameAllocator) (i : Nat) :
    nthCallResult a i = (usableFramesList a.memoryMap).get? (a.next + i) := by
  obtain ⟨h1, h2⟩ := runCalls_state a i
  simp [nthCallResult, allocateFrame, h1, h2]

theorem nthCallResult_init (map : List MemoryRegion) (i : Nat) :
    nthCallResult (allocInit map) i = (usableFramesList map).get? i := by
  rw [nthCallResult_eq]
  simp [allocInit]

theorem mem_stepBy4096 {s e a : Nat} (h : a ∈ stepBy4096 s e) :
    ∃ k, k < (e - s + 4095) / 4096 ∧ a = s + 4096 * k := by
  simp only [stepBy4096, List.mem_map, List.mem_range] at h
  obtain ⟨k, hk, rfl⟩ := h
  exact ⟨k, hk, rfl⟩

theorem containingAddress_aligned (a : Nat) : containingAddress a % 4096 = 0 := by
  simp [containingAddress, Nat.mul_mod_left]

theorem mem_usableFramesList {map : List MemoryRegion} {f : Nat}
    (h : f ∈ usableFramesList map) : ∃ a, f = containingAddress a := by
  simp only [usableFramesList, List.mem_map] at h
  obtain ⟨a, -, rfl⟩ := h
  exact ⟨a, rfl⟩

theorem ufl_eq (map : List MemoryRegion) :
    usableFramesList map = (map.filter isUsable).flatMap
      fun r => (stepBy4096 r.startAddr r.endAddr).map containingAddress := by
  unfold usableFramesList
  rw [List.flatMap_map, List.map_flatMap]

theorem region_frames_nodup {r : MemoryRegion} (hal : r.startAddr % 4096 = 0) :
    ((stepBy4096 r.startAddr r.endAddr).map containingAddress).Nodup := by
  apply List.Nodup.map_on
  · intro x hx y hy hxy
    obtain ⟨k, hk, rfl⟩ := mem_stepBy4096 hx
    obtain ⟨k', hk', rfl⟩ := mem_stepBy4096 hy
    simp only [containingAddress] at hxy
    omega
  · exact List.Nodup.map (fun a b h => by omega) (List.nodup_range _)

theorem region_frames_bounds {r : MemoryRegion} (hal : r.startAddr % 4096 = 0)
    {f : Nat} (h : f ∈ (stepBy4096 r.startAddr r.endAddr).map containingAddress) :
    r.startAddr ≤ f ∧ f < r.endAddr := by
  simp only [List.mem_map] at h
  obtain ⟨a, ha, rfl⟩ := h
  obtain ⟨k, hk, rfl⟩ := mem_stepBy4096 ha
  unfold containingAddress
  omega

theorem ufl_nodup {map : List MemoryRegion} (hal : usableAligned map)
    (hd : usableDisjoint map) : (usableFramesList map).Nodup := by
  rw [ufl_eq, List.nodup_flatMap]
  refine ⟨fun r hr => region_frames_nodup (hal r hr), ?_⟩
  refine hd.imp_of_mem ?_
  intro r s hr hs hrs x hxr hxs
  obtain ⟨h1, h2⟩ := region_frames_bounds (hal r hr) hxr
  obtain ⟨h3, h4⟩ := region_frames_bounds (hal s hs) hxs
  rcases hrs with h | h <;> omega

theorem nodup_getElem?_inj {l : List Nat} (h : l.Nodup) {i j f : Nat}
    (hi : l[i]? = some f) (hj : l[j]? = some f) : i = j := by
  obtain ⟨hi', hif⟩ := List.getElem?_eq_some_iff.mp hi
  obtain ⟨hj', hjf⟩ := List.getElem?_eq_some_iff.mp hj
  exact (h.getElem_inj_iff).mp (hif.trans hjf.symm)

theorem ufl_mem_facts {map : List MemoryRegion} (hal : usableAligned map)
    {f : Nat} (hf : f ∈ usableFramesList map) :
    f % 4096 = 0 ∧ ∃ r, r ∈ map ∧ isUsable r = true ∧
      r.startAddr ≤ f ∧ f < r.endAddr := by
  refine ⟨?_, ?_⟩
  · obtain ⟨a, rfl⟩ := mem_usableFramesList hf
    exact containingAddress_aligned a
  · rw [ufl_eq, List.mem_flatMap] at hf
    obtain ⟨r, hr, hfr⟩ := hf
    have hb := region_frames_bounds (hal r hr) hfr
    rw [List.mem_filter] at hr
    exact ⟨r, hr.1, hr.2, hb.1, hb.2⟩

/-- C3 (amended): for a memory map whose usable regions are
4KiB-aligned at their starts and pairwise disjoint, distinct calls of
`BootInfoFrameAllocator::allocate_frame` never return the same frame;
each of the first `L` calls (`L` = total usable-frame count) returns a
4KiB-aligned frame whose base lies in a usable region; and every call
from the `L`-th on returns `None` (exhaustion is permanent).  (Without
the alignment/disjointness proviso distinct calls can repeat a frame —
see the counterexample.) -/
theorem c3_allocator_run (map : List MemoryRegion)
    (hal : usableAligned map) (hd : usableDisjoint map) :
    (∀ i j f f', i ≠ j → nthCallResult (allocInit map) i = some f →
        nthCallResult (allocInit map) j = some f' → f ≠ f')
    ∧ (∀ i, i < (usableFramesList map).length →
        ∃ f, nthCallResult (allocInit map) i = some f ∧ f % 4096 = 0 ∧
          ∃ r, r ∈ map ∧ isUsable r = true ∧ r.startAddr ≤ f ∧ f < r.endAddr)
    ∧ (∀ i, (usableFramesList map).length ≤ i →
        nthCallResult (allocInit map) i = none) := by
  refine ⟨?_, ?_, ?_⟩
  · intro i j f f' hij hi hj hff
    subst hff
    rw [nthCallResult_init, List.get?_eq_getElem?] at hi hj
    exact hij (nodup_getElem?_inj (ufl_nodup hal hd) hi hj)
  · intro i hi
    refine ⟨(usableFramesList map)[i], ?_, ?_⟩
    · rw [nthCallResult_init, List.get?_eq_getElem?]
      exact List.getElem?_eq_getElem hi
    · exact ufl_mem_facts hal (List.getElem_mem hi)
  · intro i hi
    rw [nthCallResult_init, List.get?_eq_getElem?]
    exact List.getElem?_eq_none hi

/-- Witness for C3 on the single aligned usable region `0x0–0x9000`. -/
theorem c3_allocator_run_witness :
    (∀ i j f f', i ≠ j → nthCallResult (allocInit mapC7) i = some f →
        nthCallResult (allocInit mapC7) j = some f' → f ≠ f')
    ∧ (∀ i, i < (usableFramesList mapC7).length →
        ∃ f, nthCallResult (allocInit mapC7) i = some f ∧ f % 4096 = 0 ∧
          ∃ r, r ∈ mapC7 ∧ isUsable r = true ∧ r.startAddr ≤ f ∧ f < r.endAddr)
    ∧ (∀ i, (usableFramesList mapC7).length ≤ i →
        nthCallResult (allocInit mapC7) i = none) :=
  c3_allocator_run mapC7 (by decide) (by decide)

/-- Counterexample to C3 as stated: over the map with usable regions
`[0x0, 0x800)` and `[0x800, 0x1000)` (2 usable frames by the code's
counting), the first two calls both return the frame based at `0x0`,
so the first `N = 2` calls are not pairwise distinct. -/
theorem c3_counterexample :
    (usableFramesList mapAdjacent).length = 2 ∧
      nthCallResult (allocInit mapAdjacent) 0 = some 0 ∧
      nthCallResult (allocInit mapAdjacent) 1 = some 0 := by
  decide

/-- C6 (amended): every `allocate_frame` call increments the cursor by
exactly one and leaves the map unchanged, whether or not it returns a
frame; consequently no sequence position is served twice, and — for
usable regions 4KiB-aligned and pairwise disjoint — no physical frame
is ever returned by two different calls. -/
theorem c6_cursor_monotonic (a : BootInfoFrameAllocator) :
    ((allocateFrame a).2.next = a.next + 1 ∧
      (allocateFrame a).2.memoryMap = a.memoryMap)
    ∧ (usableAligned a.memoryMap → usableDisjoint a.memoryMap →
        ∀ i j f, nthCallResult a i = some f → nthCallResult a j = some f →
          i = j) := by
  refine ⟨⟨rfl, rfl⟩, ?_⟩
  intro hal hd i j f hi hj
  rw [nthCallResult_eq, List.get?_eq_getElem?] at hi hj
  have := nodup_getElem?_inj (ufl_nodup hal hd) hi hj
  omega

/-- Witness for C6 at the concrete scenario allocator. -/
theorem c6_cursor_monotonic_witness :
    (allocateFrame (allocInit mapC7)).2.next = (allocInit mapC7).next + 1 ∧
      (allocateFrame (allocInit mapC7)).2.memoryMap = (allocInit mapC7).memoryMap ∧
      (0 : Nat) = 0 :=
  ⟨(c6_cursor_monotonic (allocInit mapC7)).1.1,
   (c6_cursor_monotonic (allocInit mapC7)).1.2,
   (c6_cursor_monotonic (allocInit mapC7)).2 (by decide) (by decide) 0 0 0
     (by decide) (by decide)⟩

/-- Counterexample to C6 as stated: with the same usable region listed
twice, call 0 and call 1 both return the frame based at `0x0`, so a
frame is re-issued even though the cursor is monotonic. -/
theorem c6_counterexample :
    nthCallResult (allocInit mapDuplicated) 0 = some 0 ∧
      nthCallResult (allocInit mapDuplicated) 1 = some 0 := by
  decide

/-- C7: on the map with the single usable region `0x0000–0x9000`, the
first three calls return the frames at `0x0000`, `0x1000`, `0x2000`,
the ninth call returns `0x8000`, and the tenth returns `None` (9 usable
frames in total). -/
theorem c7_scenario :
    (usableFramesList mapC7).length = 9 ∧
      nthCallResult (allocInit mapC7) 0 = some 0x0000 ∧
      nthCallResult (allocInit mapC7) 1 = some 0x1000 ∧
      nthCallResult (allocInit mapC7) 2 = some 0x2000 ∧
      nthCallResult (allocInit mapC7) 8 = some 0x8000 ∧
      nthCallResult (allocInit mapC7) 9 = none := by
  decide

/-- C10: every frame the allocator returns — over any memory map — has
a 4KiB-aligned base, because candidate addresses are stepped from the
region's start and rounded down to the containing frame boundary; on a
usable region starting at the unaligned address `0x800`, the first
returned frame's base `0x0` lies below the region's start. -/
theorem c10_frames_aligned :
    (∀ map i f, nthCallResult (allocInit map) i = some f → f % 4096 = 0)
    ∧ nthCallResult (allocInit mapUnaligned) 0 = some 0
    ∧ (0 : Nat) < 0x800 := by
  refine ⟨?_, by decide, by decide⟩
  intro map i f h
  rw [nthCallResult_init, List.get?_eq_getElem?] at h
  obtain ⟨hlt, hf⟩ := List.getElem?_eq_some_iff.mp h
  have hmem : f ∈ usableFramesList map := hf ▸ List.getElem_mem hlt
  obtain ⟨a, ha⟩ := mem_usableFramesList hmem
  rw [ha]
  exact containingAddress_aligned a

/-- Witness for C10: the ninth frame of the scenario map is aligned. -/
theorem c10_frames_aligned_witness :
    nthCallResult (allocInit mapC7) 8 = some 0x8000 ∧ (0x8000 : Nat) % 4096 = 0 :=
  ⟨by decide, c10_frames_aligned.1 mapC7 8 0x8000 (by decide)⟩

end BerryOS
